import Mathlib

/-!
Verification development for the Reddit acquisition-and-ingestion pipeline
(`PyScripts/Database_start.py` and its earlier revision `Database_start.py`).

The Python program is shallowly embedded:

* Reddit objects reachable from a `praw.models.Submission` are modelled as plain
  data (`SubredditObj`, `ReplyObj`, `CommentObj`, `PostObj`).  The "more
  comments" placeholder `praw.models.MoreComments` is modelled by the `more`
  constructors of `CNode` / `RNode`.
* `datetime.fromtimestamp(created_utc)` is an injective conversion of the raw
  epoch stamp; the model carries the raw stamp (a `Nat`) unchanged.
* Python `set`s of tuples are modelled as `Finset`s of row structures.
* The SQLite tables are lists of rows; `INSERT OR IGNORE` on the primary key
  is `insertOrIgnore` below; `cursor.executemany` over a set is `insertMany`
  over some linearization of the set.
* Exceptions are modelled with `Except`; sqlite failures of the write phase are
  modelled by a fault-injection function saying which cursor operation raises.
-/

/-- A subreddit as observed through a post (`post.subreddit`). -/
structure SubredditObj where
  id : String
  displayName : String
  description : String
  publicDescription : String
  createdUtc : Nat
  subscribers : Int
deriving DecidableEq

/-- A reply object (second-level comment) as observed from the source.
`author` models `reply.author.name if reply.author else None`. -/
structure ReplyObj where
  id : String
  author : Option String
  createdUtc : Nat
  body : String
  score : Int
  stickied : Bool
  distinguished : Option String
deriving DecidableEq

/-- A node of a comment's reply listing: either a real reply or the
`praw.models.MoreComments` placeholder. -/
inductive RNode where
  | more
  | reply (r : ReplyObj)
deriving DecidableEq

/-- A top-level comment as observed from the source, with its reply listing. -/
structure CommentObj where
  id : String
  author : Option String
  createdUtc : Nat
  body : String
  score : Int
  stickied : Bool
  distinguished : Option String
  replies : List RNode
deriving DecidableEq

/-- A node of a post's comment listing: either a real comment or the
`praw.models.MoreComments` placeholder. -/
inductive CNode where
  | more
  | comment (c : CommentObj)
deriving DecidableEq

/-- A post (`praw.models.Submission`) with its subreddit and comment listing. -/
structure PostObj where
  id : String
  title : String
  author : Option String
  authorFlairText : Option String
  createdUtc : Nat
  subreddit : SubredditObj
  isSelf : Bool
  selftext : String
  numComments : Int
  score : Int
  upvoteRatio : Rat
  stickied : Bool
  distinguished : Option String
  url : String
  comments : List CNode
deriving DecidableEq

/-- A row of the `Posts` table, mirroring `post_columns_global`. -/
structure PostRow where
  id : String
  title : String
  author : Option String
  authorFlair : Option String
  created : Nat
  subreddit : String
  subredditId : String
  text : Bool
  textContent : Option String
  numComments : Int
  score : Int
  upvoteRatio : Rat
  stickied : Bool
  distinguished : Option String
  url : String
deriving DecidableEq

/-- A row of the `Subreddits` table, mirroring `subreddit_columns_global`. -/
structure SubRow where
  id : String
  name : String
  description : String
  publicDescription : String
  created : Nat
  subscribers : Int
deriving DecidableEq

/-- A row of the `Comments` table, mirroring `comment_columns_global`. -/
structure CommentRow where
  id : String
  author : Option String
  created : Nat
  submissionId : String
  textContent : String
  numReplies : Nat
  score : Int
  stickied : Bool
  distinguished : Option String
deriving DecidableEq

/-- A row of the `Replies` table, mirroring `reply_columns_global`. -/
structure ReplyRow where
  id : String
  author : Option String
  created : Nat
  submissionId : String
  parentId : String
  textContent : String
  score : Int
  stickied : Bool
  distinguished : Option String
deriving DecidableEq

/-- The post tuple built in `process_post_batch` (lines 201-217).  Note the
source stores `post.selftext if post.selftext else None`: an empty selftext
becomes `None`. -/
def postRow (p : PostObj) : PostRow :=
  { id := p.id
    title := p.title
    author := p.author
    authorFlair := p.authorFlairText
    created := p.createdUtc
    subreddit := p.subreddit.displayName
    subredditId := p.subreddit.id
    text := p.isSelf
    textContent := if p.selftext = "" then none else some p.selftext
    numComments := p.numComments
    score := p.score
    upvoteRatio := p.upvoteRatio
    stickied := p.stickied
    distinguished := p.distinguished
    url := p.url }

/-- The subreddit tuple built in `process_post_batch` (lines 218-225). -/
def subredditRow (s : SubredditObj) : SubRow :=
  { id := s.id
    name := s.displayName
    description := s.description
    publicDescription := s.publicDescription
    created := s.createdUtc
    subscribers := s.subscribers }

/-- The comment tuple built in `process_comments` (lines 273-283); the
`Num_replies` field carries the loop counter `num_replies`. -/
def commentRow (postId : String) (c : CommentObj) (numReplies : Nat) : CommentRow :=
  { id := c.id
    author := c.author
    created := c.createdUtc
    submissionId := postId
    textContent := c.body
    numReplies := numReplies
    score := c.score
    stickied := c.stickied
    distinguished := c.distinguished }

/-- The reply tuple built in `process_comments` (lines 259-269); its parent id
is the enclosing comment's own id (`comment.id`), not `reply.parent_id`. -/
def replyRow (postId : String) (c : CommentObj) (r : ReplyObj) : ReplyRow :=
  { id := r.id
    author := r.author
    created := r.createdUtc
    submissionId := postId
    parentId := c.id
    textContent := r.body
    score := r.score
    stickied := r.stickied
    distinguished := r.distinguished }

/-- The inner loop of `process_comments` (lines 253-270): walk the (already
sliced) reply listing, stop at the first `MoreComments` placeholder, collect
reply tuples into a set and count the iterations in `num_replies`. -/
def repliesLoop (postId : String) (c : CommentObj) : List RNode → Finset ReplyRow × Nat
  | [] => (∅, 0)
  | RNode.more :: _ => (∅, 0)
  | RNode.reply r :: rest =>
    let acc := repliesLoop postId c rest
    (insert (replyRow postId c r) acc.1, acc.2 + 1)

/-- The outer loop of `process_comments` (lines 247-283): walk the (already
sliced) comment listing, stop at the first `MoreComments` placeholder, run the
reply loop on `comment.replies[:replies_limit]`, and emit the comment tuple
carrying the reply counter. -/
def commentsLoop (p : PostObj) (repliesLimit : Nat) :
    List CNode → Finset CommentRow × Finset ReplyRow
  | [] => (∅, ∅)
  | CNode.more :: _ => (∅, ∅)
  | CNode.comment c :: rest =>
    let pr := repliesLoop p.id c (c.replies.take repliesLimit)
    let acc := commentsLoop p repliesLimit rest
    (insert (commentRow p.id c pr.2) acc.1, pr.1 ∪ acc.2)

/-- `process_comments(post, comments_limit, replies_limit)`: iterates over
`post.comments[:comments_limit]`. -/
def processComments (p : PostObj) (commentsLimit repliesLimit : Nat) :
    Finset CommentRow × Finset ReplyRow :=
  commentsLoop p repliesLimit (p.comments.take commentsLimit)

/-- The four collections produced by extraction (the Python 4-tuple of sets). -/
@[ext]
structure ExtractResult where
  posts : Finset PostRow
  subreddits : Finset SubRow
  comments : Finset CommentRow
  replies : Finset ReplyRow
deriving DecidableEq

/-- `process_post_batch(posts, comments_limit, replies_limit)` (lines 182-230):
for each post, add its post tuple and subreddit tuple and merge in the comment
and reply sets from `process_comments`. -/
def processPostBatch (posts : List PostObj) (commentsLimit repliesLimit : Nat) :
    ExtractResult :=
  match posts with
  | [] => ⟨∅, ∅, ∅, ∅⟩
  | p :: rest =>
    let cr := processComments p commentsLimit repliesLimit
    let acc := processPostBatch rest commentsLimit repliesLimit
    ⟨insert (postRow p) acc.posts, insert (subredditRow p.subreddit) acc.subreddits,
      cr.1 ∪ acc.comments, cr.2 ∪ acc.replies⟩

/-- The real comments of a comment listing up to the first placeholder:
exactly the nodes the `process_comments` outer loop processes. -/
def realComments (ns : List CNode) : List CommentObj :=
  (ns.takeWhile fun n => match n with | CNode.comment _ => true | CNode.more => false).filterMap
    fun n => match n with | CNode.comment c => some c | CNode.more => none

/-- The real replies of a reply listing up to the first placeholder:
exactly the nodes the `process_comments` inner loop processes. -/
def realReplies (ns : List RNode) : List ReplyObj :=
  (ns.takeWhile fun n => match n with | RNode.reply _ => true | RNode.more => false).filterMap
    fun n => match n with | RNode.reply r => some r | RNode.more => none

/-- All (post, comment) pairs processed in a run of `process_post_batch`. -/
def runComments (posts : List PostObj) (commentsLimit : Nat) :
    List (PostObj × CommentObj) :=
  posts.flatMap fun p => (realComments (p.comments.take commentsLimit)).map fun c => (p, c)

/-- The upstream search endpoint, modelled from the spec's external-interface
contract (section 6): `search(query, limit, afterCursor)` returns the next
`limit` available items strictly after the item whose id is the cursor (all
items when the cursor is absent), and may return a strictly smaller page when
the source is exhausted.  The available items are a fixed list `src`. -/
def dropAfterId (a : String) : List PostObj → List PostObj
  | [] => []
  | x :: rest => if x.id = a then rest else dropAfterId a rest

/-- One `reddit.subreddit('all').search(query, limit, params)` request against
the modelled source. -/
def searchAll (src : List PostObj) (lim : Nat) (after : Option String) : List PostObj :=
  match after with
  | none => src.take lim
  | some a => (dropAfterId a src).take lim

/-- The mutable state of the pagination loop in `fill_tables` (lines 348-364):
`last_post_id`, `after_param`, and the accumulated result pages.  The list of
issued requests (limit, after-cursor) is recorded alongside. -/
structure PgState where
  lastPostId : Option String
  afterParam : Option String
  requests : List (Nat × Option String)
  pages : List (List PostObj)
deriving DecidableEq

/-- The cursor used by one pagination iteration: `if last_post_id:
after_param = last_post_id` (Python truthiness — `None` and the empty string
are falsy), then the request is issued with that `after_param`. -/
def pgCursor (st : PgState) : Option String :=
  match st.lastPostId with
  | some s => if s = "" then st.afterParam else some s
  | none => st.afterParam

/-- The per-request limit: `native_limit if i != div else mod`. -/
def pgLimit (dv md i : Nat) : Nat := if i ≠ dv then 100 else md

/-- The pagination loop body of `fill_tables` for `i in range(div+1)`:
break when `i == div and mod == 0`; request `pgLimit` items after `pgCursor`;
`search_results[-1]` on an empty page raises `IndexError`, modelled as
`Except.error`; otherwise record the page and carry the last item's id into
`last_post_id` for the next iteration. -/
def pgRun (src : List PostObj) (dv md : Nat) : List Nat → PgState → Except Unit PgState
  | [], st => .ok st
  | i :: rest, st =>
    if i = dv ∧ md = 0 then .ok st
    else
      match (searchAll src (pgLimit dv md i) (pgCursor st)).getLast? with
      | none => .error ()
      | some lastPost =>
        pgRun src dv md rest
          { lastPostId := some lastPost.id
            afterParam := pgCursor st
            requests := st.requests ++ [(pgLimit dv md i, pgCursor st)]
            pages := st.pages ++ [searchAll src (pgLimit dv md i) (pgCursor st)] }

/-- The fetch phase of `fill_tables` (lines 337, 348-367): `native_limit` is
100; when `posts_limit > native_limit` the pagination loop runs over
`range(div+1)` with `div, mod = divmod(posts_limit, 100)`; otherwise one
search with `limit=posts_limit` is made (the lazy listing issues no request at
all when the limit is 0, and a single request of size `posts_limit`
otherwise).  Returns the issued requests and the result pages. -/
def fillTablesFetch (src : List PostObj) (postsLimit : Nat) :
    Except Unit (List (Nat × Option String) × List (List PostObj)) :=
  if postsLimit > 100 then
    (pgRun src (postsLimit / 100) (postsLimit % 100)
        (List.range (postsLimit / 100 + 1))
        ⟨none, none, [], []⟩).map fun st => (st.requests, st.pages)
  else
    .ok (if postsLimit = 0 then [] else [(postsLimit, none)], [src.take postsLimit])

/-- The extraction pipeline of `fill_tables` (lines 337-376): clamp
`comments_limit` and `replies_limit` to 100 and `posts_limit` to 10000, fetch
the result collection, and run `process_post_batch` on it. -/
def fillTablesExtract (src : List PostObj) (postsLimit commentsLimit repliesLimit : Nat) :
    Except Unit ExtractResult :=
  (fillTablesFetch src (min postsLimit 10000)).map fun rp =>
    processPostBatch rp.2.flatten (min commentsLimit 100) (min repliesLimit 100)

/-- The four tables of the store.  `prepare_database` creates them empty with
`Id TEXT PRIMARY KEY` on each (lines 106-167). -/
structure DB where
  posts : List PostRow
  subreddits : List SubRow
  comments : List CommentRow
  replies : List ReplyRow
deriving DecidableEq

/-- The empty store produced by `prepare_database` on a fresh connection. -/
def emptyDB : DB := ⟨[], [], [], []⟩

/-- `INSERT OR IGNORE` of a single row: a row whose primary key already occurs
in the table is silently dropped, otherwise it is appended. -/
def insertOrIgnore {α : Type} (key : α → String) (t : List α) (x : α) : List α :=
  if key x ∈ t.map key then t else t ++ [x]

/-- `cursor.executemany(insert_query, rows)` with an `INSERT OR IGNORE`
statement: fold `insertOrIgnore` over the rows in their iteration order. -/
def insertMany {α : Type} (key : α → String) (t : List α) (xs : List α) : List α :=
  xs.foldl (insertOrIgnore key) t

/-- The five cursor operations of the persistence phase of `fill_tables`
(lines 383-389), in source order. -/
inductive WStep where
  | posts
  | subreddits
  | comments
  | replies
  | commit
deriving DecidableEq

/-- The persistence phase of `fill_tables` (lines 383-396): BEGIN TRANSACTION;
the four `executemany` bulk inserts in the order Posts, Subreddits, Comments,
Replies; COMMIT.  A sqlite failure at any step is caught and the transaction
rolled back, leaving the store as it was.  `fault` says which cursor
operations raise; `p s c r` are the four row collections in their iteration
order. -/
def fillTablesWrite (fault : WStep → Bool) (db : DB)
    (p : List PostRow) (s : List SubRow) (c : List CommentRow) (r : List ReplyRow) : DB :=
  if fault .posts then db else
  let db1 := { db with posts := insertMany PostRow.id db.posts p }
  if fault .subreddits then db else
  let db2 := { db1 with subreddits := insertMany SubRow.id db1.subreddits s }
  if fault .comments then db else
  let db3 := { db2 with comments := insertMany CommentRow.id db2.comments c }
  if fault .replies then db else
  let db4 := { db3 with replies := insertMany ReplyRow.id db3.replies r }
  if fault .commit then db else db4

/-- Every table of the store has at most one row per primary-key id. -/
def keysNodup (db : DB) : Prop :=
  (db.posts.map PostRow.id).Nodup ∧ (db.subreddits.map SubRow.id).Nodup ∧
    (db.comments.map CommentRow.id).Nodup ∧ (db.replies.map ReplyRow.id).Nodup

/-- The merge loop of `fill_tables` in the earlier revision
(`Database_start.py` lines 281-285): the per-batch 4-tuples of sets are merged
with `set.update`, a pure set union, starting from four empty sets. -/
def mergeResults (rs : List ExtractResult) : ExtractResult :=
  rs.foldl
    (fun acc r =>
      ⟨acc.posts ∪ r.posts, acc.subreddits ∪ r.subreddits,
        acc.comments ∪ r.comments, acc.replies ∪ r.replies⟩)
    ⟨∅, ∅, ∅, ∅⟩

/-! Concrete sample data used by witnesses. -/

def sub0 : SubredditObj :=
  ⟨"s1", "testsub", "a community description", "a public description", 1700000000, 100⟩

def reply0 : ReplyObj :=
  ⟨"r1", some "alice", 1700000300, "a reply body", 1, false, none⟩

def comment0 : CommentObj :=
  ⟨"c1", some "bob", 1700000200, "a comment body", 2, false, none, [RNode.reply reply0]⟩

def post0 : PostObj :=
  ⟨"p1", "a title", some "carol", none, 1700000100, sub0, true, "a post body", 1, 10,
    (1 : Rat), false, none, "https://e.example/p1", [CNode.comment comment0, CNode.more]⟩

def mkPost (k : Nat) : PostObj :=
  ⟨Nat.repr k, "t", none, none, k, sub0, true, "s", 0, 0, (1 : Rat), false, none, "u", []⟩

def src70 : List PostObj := (List.range 70).map mkPost

def src250 : List PostObj := (List.range 250).map mkPost

/-- The fault pattern in which only the Reply bulk insert raises. -/
def faultAtReplies : WStep → Bool := fun st => decide (st = WStep.replies)

/-- The fault pattern in which every cursor operation succeeds. -/
def noFault : WStep → Bool := fun _ => false

/-- One step of the merge loop of the earlier revision's `fill_tables`: the
four `set.update` calls of lines 282-285. -/
def mergeStep (acc r : ExtractResult) : ExtractResult :=
  ⟨acc.posts ∪ r.posts, acc.subreddits ∪ r.subreddits,
    acc.comments ∪ r.comments, acc.replies ∪ r.replies⟩
/-- Two sample batch results: the same community id observed with two
subscriber counts. -/
def batchA : ExtractResult := ⟨{postRow post0}, {subredditRow sub0}, ∅, ∅⟩

def batchB : ExtractResult :=
  ⟨∅, {subredditRow { sub0 with subscribers := 105 }}, ∅, ∅⟩
/-- The set of reply tuples the inner loop emits for one comment. -/
def repliesOfComment (postId : String) (repliesLimit : Nat) (c : CommentObj) :
    Finset ReplyRow :=
  ((realReplies (c.replies.take repliesLimit)).map (replyRow postId c)).toFinset
/-- The request sizes produced by the pagination loop from a given index
list onward. -/
def idxSizes (dv md : Nat) : List Nat → List Nat
  | [] => []
  | i :: rest =>
    if i = dv ∧ md = 0 then [] else pgLimit dv md i :: idxSizes dv md rest

/-- The request sizes claimed by the spec: full pages of `nativeLimit = 100`
followed by the remainder when nonzero. -/
def expectedSizes (n : Nat) : List Nat :=
  List.replicate (n / 100) 100 ++ (if n % 100 = 0 then [] else [n % 100])
/-- The cursor-chain property: every request after the first carries as
cursor the id of the last item of the previous page. -/
def cursorChain (reqs : List (Nat × Option String)) (pages : List (List PostObj)) : Prop :=
  ∀ (j : Nat) (hj : j + 1 < reqs.length) (hp : j < pages.length),
    (reqs.get ⟨j + 1, hj⟩).2 = ((pages.get ⟨j, hp⟩).getLast?).map PostObj.id
/-- Loop invariant of the pagination loop of `fill_tables`. -/
def PgInv (src : List PostObj) (st : PgState) : Prop :=
  st.requests.length = st.pages.length ∧
  (∀ pg ∈ st.pages, ∀ x ∈ pg, x ∈ src) ∧
  (∀ pg ∈ st.pages, pg ≠ []) ∧
  (st.pages = [] → st.lastPostId = none ∧ st.afterParam = none) ∧
  (∀ pg, st.pages.getLast? = some pg → st.lastPostId = pg.getLast?.map PostObj.id) ∧
  cursorChain st.requests st.pages
/-- The concrete pagination run with 250 available items and limit 250. -/
def fetch250 : Except Unit (List (Nat × Option String) × List (List PostObj)) :=
  fillTablesFetch src250 250

def reqs250 : List (Nat × Option String) := (fetch250.toOption.getD ([], [])).1

def pages250 : List (List PostObj) := (fetch250.toOption.getD ([], [])).2

/-- Claim C1: the persistence phase of `fill_tables` opens one transaction,
issues the four bulk insert-or-ignore operations in the fixed order Posts,
Subreddits, Comments, Replies, and commits only if all four succeed; on any
failure of any of the four inserts the whole transaction rolls back and zero
rows from that call are visible afterward (in particular, if the Reply insert
fails, the Post/Subreddit/Comment rows from the same call are not visible). -/
theorem fillTablesWrite_atomic (fault : WStep → Bool) (db : DB)
    (p : List PostRow) (s : List SubRow) (c : List CommentRow) (r : List ReplyRow) :
    ((fault .posts || fault .subreddits || fault .comments || fault .replies) = true →
      fillTablesWrite fault db p s c r = db) ∧
    ((∀ st, fault st = false) →
      fillTablesWrite fault db p s c r =
        { posts := insertMany PostRow.id db.posts p
          subreddits := insertMany SubRow.id db.subreddits s
          comments := insertMany CommentRow.id db.comments c
          replies := insertMany ReplyRow.id db.replies r }) := by
  constructor
  · intro h
    unfold fillTablesWrite
    cases hp : fault .posts <;> cases hs : fault .subreddits <;>
      cases hc : fault .comments <;> cases hr : fault .replies <;> simp_all
  · intro h
    simp [fillTablesWrite, h WStep.posts, h WStep.subreddits, h WStep.comments,
      h WStep.replies, h WStep.commit]

/-- Witness for C1: with a fault injected at the Reply insert, a call that
carries one row for each table leaves the empty store unchanged. -/
theorem fillTablesWrite_atomic_witness :
    fillTablesWrite faultAtReplies emptyDB [postRow post0] [subredditRow sub0]
      [commentRow "p1" comment0 1] [replyRow "p1" comment0 reply0] = emptyDB :=
  (fillTablesWrite_atomic faultAtReplies emptyDB [postRow post0] [subredditRow sub0]
    [commentRow "p1" comment0 1] [replyRow "p1" comment0 reply0]).1 (by decide)

theorem insertOrIgnore_map_nodup {α : Type} (key : α → String) (t : List α) (x : α)
    (h : (t.map key).Nodup) : ((insertOrIgnore key t x).map key).Nodup := by
  unfold insertOrIgnore
  split
  · exact h
  · rename_i hx
    simp [List.nodup_append, h, hx]

theorem insertMany_map_nodup {α : Type} (key : α → String) (t xs : List α)
    (h : (t.map key).Nodup) : ((insertMany key t xs).map key).Nodup := by
  induction xs generalizing t with
  | nil => exact h
  | cons x xs ih => exact ih (insertOrIgnore key t x) (insertOrIgnore_map_nodup key t x h)

theorem insertMany_find {α : Type} (key : α → String) (t xs : List α) (k : String) :
    (insertMany key t xs).find? (fun row => key row == k) =
      ((t.find? (fun row => key row == k)).orElse
        fun _ => xs.find? (fun x => key x == k)) := by
  induction xs generalizing t with
  | nil => cases ht : t.find? (fun row => key row == k) <;> simp [insertMany, Option.orElse, ht]
  | cons x xs ih =>
    have step : insertMany key t (x :: xs) = insertMany key (insertOrIgnore key t x) xs := rfl
    rw [step, ih]
    unfold insertOrIgnore
    split
    · rename_i hmem
      cases ht : t.find? (fun row => key row == k) with
      | some v => simp [Option.orElse, ht]
      | none =>
        cases hxk : (key x == k) with
        | true =>
          exfalso
          have hk : key x = k := by simpa using hxk
          obtain ⟨row, hrow, hrk⟩ := List.exists_of_mem_map hmem
          have := List.find?_eq_none.mp ht row hrow
          simp [hrk, hk] at this
        | false => simp [Option.orElse, ht, List.find?_cons, hxk]
    · rename_i hmem
      cases ht : t.find? (fun row => key row == k) with
      | some v =>
        have : (t ++ [x]).find? (fun row => key row == k) = some v := by
          rw [List.find?_append, ht]
          simp [Option.orElse]
        simp [Option.orElse, this, ht]
      | none =>
        have happ : (t ++ [x]).find? (fun row => key row == k) =
            [x].find? (fun row => key row == k) := by
          rw [List.find?_append, ht]
          simp [Option.orElse]
        cases hxk : (key x == k) with
        | true => simp [Option.orElse, happ, List.find?_cons, hxk, ht]
        | false => simp [Option.orElse, happ, List.find?_cons, hxk, ht]

/-- Claim C2: after a write completes, each of the four tables contains at
most one row per primary-key id, even when the same id was produced with
differing non-key field values; the first successfully committed row for an id
wins and later conflicting insert attempts are silently dropped without
error. -/
theorem fillTablesWrite_unique_ids (fault : WStep → Bool) (db : DB)
    (p : List PostRow) (s : List SubRow) (c : List CommentRow) (r : List ReplyRow)
    (h : keysNodup db) :
    keysNodup (fillTablesWrite fault db p s c r) ∧
    (∀ {α : Type} (key : α → String) (t xs : List α) (k : String),
      (insertMany key t xs).find? (fun row => key row == k) =
        ((t.find? (fun row => key row == k)).orElse
          fun _ => xs.find? (fun x => key x == k))) := by
  refine ⟨?_, fun key t xs k => insertMany_find key t xs k⟩
  obtain ⟨h1, h2, h3, h4⟩ := h
  unfold fillTablesWrite
  cases hp : fault .posts <;> cases hs : fault .subreddits <;>
    cases hc : fault .comments <;> cases hr : fault .replies <;>
    cases hm : fault .commit <;>
    simp_all [keysNodup] <;>
    exact ⟨insertMany_map_nodup PostRow.id db.posts p h1,
      insertMany_map_nodup SubRow.id db.subreddits s h2,
      insertMany_map_nodup CommentRow.id db.comments c h3,
      insertMany_map_nodup ReplyRow.id db.replies r h4⟩

/-- Witness for C2: a successful write of two post rows sharing the primary
key "p1" with different titles leaves every table duplicate-free. -/
theorem fillTablesWrite_unique_ids_witness :
    keysNodup (fillTablesWrite noFault emptyDB
      [postRow post0, postRow { post0 with title := "another title" }] [] [] []) :=
  (fillTablesWrite_unique_ids noFault emptyDB
    [postRow post0, postRow { post0 with title := "another title" }] [] [] []
    (by simp [keysNodup, emptyDB])).1

/-- Claim C10: for every call to `fill_tables`, the comment and reply
extraction limits actually used are silently clamped to at most 100 each, and
the posts limit to at most 10000, before any fetching or extraction begins,
regardless of the larger values a caller may pass. -/
theorem fillTables_limits_clamped (src : List PostObj) (pl cl rl : Nat) :
    fillTablesExtract src pl cl rl =
      fillTablesExtract src (min pl 10000) (min cl 100) (min rl 100) ∧
    (100 ≤ cl → 100 ≤ rl → 10000 ≤ pl →
      fillTablesExtract src pl cl rl = fillTablesExtract src 10000 100 100) := by
  constructor
  · simp [fillTablesExtract, Nat.min_assoc]
  · intro h1 h2 h3
    simp [fillTablesExtract, Nat.min_eq_right h1, Nat.min_eq_right h2, Nat.min_eq_right h3]

/-- Witness for C10: passing limits 20000/500/300 behaves exactly as passing
the caps 10000/100/100. -/
theorem fillTables_limits_clamped_witness :
    fillTablesExtract [] 20000 500 300 = fillTablesExtract [] 10000 100 100 :=
  (fillTables_limits_clamped [] 20000 500 300).2 (by decide) (by decide) (by decide)

/-- Claim C4 (refuting theorem): pagination does not stop early when the
source is exhausted — it raises.  With `posts_limit = 150` and an empty
source, and likewise with a source of only 70 items, `fill_tables` hits
`search_results[-1]` on an empty page and the `IndexError` (modelled as
`Except.error`) propagates instead of the pipeline proceeding with what it
has. -/
theorem pagination_exhaustion_raises :
    fillTablesFetch ([] : List PostObj) 150 = .error () ∧
    fillTablesFetch src70 150 = .error () := by
  constructor
  · rfl
  · rfl

/-- Claim C9 (counterexample): a post whose raw selftext is the empty string
is persisted with a NULL `Text_content`, not with the raw (empty) text — the
layer substitutes `None` for falsy text, so the column does not always hold
exactly the observed text. -/
theorem postRow_drops_empty_selftext :
    (postRow { mkPost 0 with selftext := "" }).textContent ≠
      some ({ mkPost 0 with selftext := "" } : PostObj).selftext := by
  decide

theorem insertMany_mem {α : Type} (key : α → String) (t xs : List α) (row : α)
    (h : row ∈ insertMany key t xs) : row ∈ t ∨ row ∈ xs := by
  induction xs generalizing t with
  | nil => exact .inl h
  | cons x xs ih =>
    rcases ih (insertOrIgnore key t x) h with h1 | h1
    · unfold insertOrIgnore at h1
      split at h1
      · exact .inl h1
      · rcases List.mem_append.mp h1 with h2 | h2
        · exact .inl h2
        · simp only [List.mem_singleton] at h2
          exact .inr (h2 ▸ List.mem_cons_self x xs)
    · exact .inr (List.mem_cons_of_mem x h1)

/-- Claim C9 (amended): the text-bearing columns hold the raw source text
unchanged for comment bodies, reply bodies and community descriptions, and
for post bodies whenever the selftext is nonempty (the sentinel strings for
deleted/removed content included); the single exception is that a post whose
selftext is the empty string is stored with NULL instead of the raw empty
text.  The write phase inserts rows verbatim or drops them, never transformed. -/
theorem raw_text_persisted (p : PostObj) (c : CommentObj) (r : ReplyObj)
    (s : SubredditObj) (pid : String) (n : Nat) (hp : p.selftext ≠ "") :
    (postRow p).textContent = some p.selftext ∧
    (commentRow pid c n).textContent = c.body ∧
    (replyRow pid c r).textContent = r.body ∧
    (subredditRow s).description = s.description ∧
    (subredditRow s).publicDescription = s.publicDescription ∧
    (∀ q : PostObj, q.selftext = "" → (postRow q).textContent = none) ∧
    (∀ (key : CommentRow → String) (t xs : List CommentRow) (row : CommentRow),
      row ∈ insertMany key t xs → row ∈ t ∨ row ∈ xs) := by
  refine ⟨?_, rfl, rfl, rfl, rfl, ?_, fun key t xs row h => insertMany_mem key t xs row h⟩
  · simp [postRow, hp]
  · intro q hq
    simp [postRow, hq]

/-- Witness for C9's amended theorem: the sample post stores its nonempty body
verbatim. -/
theorem raw_text_persisted_witness :
    (postRow post0).textContent = some post0.selftext :=
  (raw_text_persisted post0 comment0 reply0 sub0 "p1" 1 (by decide)).1

theorem mergeFold_mem (rs : List ExtractResult) (acc : ExtractResult) :
    (∀ x, x ∈ (rs.foldl mergeStep acc).posts ↔ x ∈ acc.posts ∨ ∃ r ∈ rs, x ∈ r.posts) ∧
    (∀ x, x ∈ (rs.foldl mergeStep acc).subreddits ↔
      x ∈ acc.subreddits ∨ ∃ r ∈ rs, x ∈ r.subreddits) ∧
    (∀ x, x ∈ (rs.foldl mergeStep acc).comments ↔
      x ∈ acc.comments ∨ ∃ r ∈ rs, x ∈ r.comments) ∧
    (∀ x, x ∈ (rs.foldl mergeStep acc).replies ↔
      x ∈ acc.replies ∨ ∃ r ∈ rs, x ∈ r.replies) := by
  induction rs generalizing acc with
  | nil => simp
  | cons a rs ih =>
    obtain ⟨i1, i2, i3, i4⟩ := ih (mergeStep acc a)
    refine ⟨fun x => ?_, fun x => ?_, fun x => ?_, fun x => ?_⟩ <;>
      rw [List.foldl_cons] <;>
      simp only [i1, i2, i3, i4] <;>
      simp [mergeStep, or_assoc]

/-- Claim C5: merging the per-batch extraction results is a pure set union
and therefore order-independent: for any permutation of batch-processing
order the four merged collections are set-equal; deduplication at the merge
stage is by full-tuple equality (membership in the merged set is exactly
membership in some batch), so identical observations collapse to one while
same-id observations with different field values both remain present. -/
theorem mergeResults_perm_invariant (rs rsp : List ExtractResult) (h : rs.Perm rsp) :
    mergeResults rs = mergeResults rsp ∧
    (∀ x, x ∈ (mergeResults rs).posts ↔ ∃ r ∈ rs, x ∈ r.posts) ∧
    (∀ x, x ∈ (mergeResults rs).subreddits ↔ ∃ r ∈ rs, x ∈ r.subreddits) ∧
    (∀ x, x ∈ (mergeResults rs).comments ↔ ∃ r ∈ rs, x ∈ r.comments) ∧
    (∀ x, x ∈ (mergeResults rs).replies ↔ ∃ r ∈ rs, x ∈ r.replies) := by
  have hdef : ∀ l : List ExtractResult, mergeResults l = l.foldl mergeStep ⟨∅, ∅, ∅, ∅⟩ :=
    fun l => rfl
  obtain ⟨m1, m2, m3, m4⟩ := mergeFold_mem rs ⟨∅, ∅, ∅, ∅⟩
  obtain ⟨n1, n2, n3, n4⟩ := mergeFold_mem rsp ⟨∅, ∅, ∅, ∅⟩
  rw [hdef rs, hdef rsp]
  refine ⟨?_, ?_, ?_, ?_, ?_⟩
  · apply ExtractResult.ext <;> apply Finset.ext <;> intro x
    · rw [m1 x, n1 x]
      simp [h.mem_iff]
    · rw [m2 x, n2 x]
      simp [h.mem_iff]
    · rw [m3 x, n3 x]
      simp [h.mem_iff]
    · rw [m4 x, n4 x]
      simp [h.mem_iff]
  · intro x
    rw [m1 x]
    simp
  · intro x
    rw [m2 x]
    simp
  · intro x
    rw [m3 x]
    simp
  · intro x
    rw [m4 x]
    simp

/-- Witness for C5: swapping the two batches leaves the merged result equal. -/
theorem mergeResults_perm_invariant_witness :
    mergeResults [batchA, batchB] = mergeResults [batchB, batchA] :=
  (mergeResults_perm_invariant [batchA, batchB] [batchB, batchA]
    (List.Perm.swap batchB batchA [])).1

theorem repliesLoop_spec (postId : String) (c : CommentObj) (ns : List RNode) :
    repliesLoop postId c ns =
      (((realReplies ns).map (replyRow postId c)).toFinset, (realReplies ns).length) := by
  induction ns with
  | nil => simp [repliesLoop, realReplies]
  | cons n rest ih =>
    cases n with
    | more => simp [repliesLoop, realReplies]
    | reply r => simp [repliesLoop, ih, realReplies, List.takeWhile_cons]

theorem commentsLoop_spec (p : PostObj) (rl : Nat) (ns : List CNode) :
    commentsLoop p rl ns =
      (((realComments ns).map fun c =>
          commentRow p.id c (realReplies (c.replies.take rl)).length).toFinset,
        (realComments ns).foldr (fun c acc => repliesOfComment p.id rl c ∪ acc) ∅) := by
  induction ns with
  | nil => simp [commentsLoop, realComments]
  | cons n rest ih =>
    cases n with
    | more => simp [commentsLoop, realComments]
    | comment c =>
      simp [commentsLoop, ih, realComments, List.takeWhile_cons, repliesLoop_spec,
        repliesOfComment]

theorem mem_foldr_union {β : Type} [DecidableEq β] (f : CommentObj → Finset β)
    (cs : List CommentObj) (x : β) :
    x ∈ cs.foldr (fun c acc => f c ∪ acc) ∅ ↔ ∃ c ∈ cs, x ∈ f c := by
  induction cs with
  | nil => simp
  | cons c cs ih => simp [ih]

theorem processPostBatch_mem (posts : List PostObj) (cl rl : Nat) :
    (∀ x, x ∈ (processPostBatch posts cl rl).posts ↔ ∃ p ∈ posts, x = postRow p) ∧
    (∀ x, x ∈ (processPostBatch posts cl rl).subreddits ↔
      ∃ p ∈ posts, x = subredditRow p.subreddit) ∧
    (∀ x, x ∈ (processPostBatch posts cl rl).comments ↔
      ∃ pc ∈ runComments posts cl,
        x = commentRow pc.1.id pc.2 (realReplies (pc.2.replies.take rl)).length) ∧
    (∀ x, x ∈ (processPostBatch posts cl rl).replies ↔
      ∃ pc ∈ runComments posts cl, x ∈ repliesOfComment pc.1.id rl pc.2) := by
  induction posts with
  | nil => simp [processPostBatch, runComments]
  | cons p rest ih =>
    obtain ⟨i1, i2, i3, i4⟩ := ih
    refine ⟨fun x => ?_, fun x => ?_, fun x => ?_, fun x => ?_⟩
    · simp [processPostBatch, i1]
    · simp [processPostBatch, i2]
    · rw [show (processPostBatch (p :: rest) cl rl).comments =
          (processComments p cl rl).1 ∪ (processPostBatch rest cl rl).comments from rfl]
      rw [Finset.mem_union, i3 x]
      have hcur : x ∈ (processComments p cl rl).1 ↔
          ∃ c ∈ realComments (p.comments.take cl),
            x = commentRow p.id c (realReplies (c.replies.take rl)).length := by
        simp only [processComments]
        rw [commentsLoop_spec]
        simp [eq_comm]
      rw [hcur]
      constructor
      · rintro (⟨c, hc, rfl⟩ | ⟨pc, hpc, rfl⟩)
        · refine ⟨(p, c), ?_, rfl⟩
          simp only [runComments, List.flatMap_cons, List.mem_append]
          exact .inl (List.mem_map_of_mem _ hc)
        · refine ⟨pc, ?_, rfl⟩
          simp only [runComments, List.flatMap_cons, List.mem_append]
          right
          exact hpc
      · rintro ⟨pc, hpc, rfl⟩
        rw [runComments, List.flatMap_cons] at hpc
        rcases List.mem_append.mp hpc with h | h
        · obtain ⟨c, hc, rfl⟩ := List.mem_map.mp h
          exact .inl ⟨c, hc, rfl⟩
        · exact .inr ⟨pc, h, rfl⟩
    · rw [show (processPostBatch (p :: rest) cl rl).replies =
          (processComments p cl rl).2 ∪ (processPostBatch rest cl rl).replies from rfl]
      rw [Finset.mem_union, i4 x]
      have hcur : x ∈ (processComments p cl rl).2 ↔
          ∃ c ∈ realComments (p.comments.take cl), x ∈ repliesOfComment p.id rl c := by
        simp only [processComments]
        rw [commentsLoop_spec]
        exact mem_foldr_union _ _ x
      rw [hcur]
      constructor
      · rintro (⟨c, hc, hx⟩ | ⟨pc, hpc, hx⟩)
        · refine ⟨(p, c), ?_, hx⟩
          simp only [runComments, List.flatMap_cons, List.mem_append]
          exact .inl (List.mem_map_of_mem _ hc)
        · refine ⟨pc, ?_, hx⟩
          simp only [runComments, List.flatMap_cons, List.mem_append]
          right
          exact hpc
      · rintro ⟨pc, hpc, hx⟩
        rw [runComments, List.flatMap_cons] at hpc
        rcases List.mem_append.mp hpc with h | h
        · obtain ⟨c, hc, rfl⟩ := List.mem_map.mp h
          exact .inl ⟨c, hc, hx⟩
        · exact .inr ⟨pc, h, hx⟩

/-- Claim C6: for every thread object the extractor processes at most
`comments_limit` top-level comments and at most `replies_limit` replies per
comment, stops the traversal silently at the first placeholder node, and never
emits the placeholder itself: the emitted comment set is exactly the image of
the real comments preceding the first placeholder within the slice; a listing
of one real comment followed by a placeholder yields exactly one tuple. -/
theorem processComments_stops_at_placeholder (p : PostObj) (cl rl : Nat) :
    (processComments p cl rl).1 =
      ((realComments (p.comments.take cl)).map fun c =>
        commentRow p.id c (realReplies (c.replies.take rl)).length).toFinset ∧
    (processComments p cl rl).1.card ≤ cl ∧
    (∀ c : CommentObj, (repliesLoop p.id c (c.replies.take rl)).1.card ≤ rl) ∧
    (processComments post0 50 20).1.card = 1 := by
  have hchar : (processComments p cl rl).1 =
      ((realComments (p.comments.take cl)).map fun c =>
        commentRow p.id c (realReplies (c.replies.take rl)).length).toFinset := by
    simp only [processComments]
    rw [commentsLoop_spec]
  refine ⟨hchar, ?_, ?_, by decide⟩
  · rw [hchar]
    refine le_trans (List.toFinset_card_le _) ?_
    rw [List.length_map]
    refine le_trans ?_ (List.length_take_le cl p.comments)
    exact le_trans (List.length_filterMap_le _ _) (List.takeWhile_sublist _).length_le
  · intro c
    rw [repliesLoop_spec]
    refine le_trans (List.toFinset_card_le _) ?_
    rw [List.length_map]
    refine le_trans ?_ (List.length_take_le rl c.replies)
    exact le_trans (List.length_filterMap_le _ _) (List.takeWhile_sublist _).length_le

/-- Claim C8: every Comment tuple's owning-post id is the id of a Post tuple
emitted in the same run, and every Reply tuple's owning-post id and
parent-comment id are respectively the id of a Post tuple and of a Comment
tuple emitted in the same run. -/
theorem extraction_referentially_complete (posts : List PostObj) (cl rl : Nat) :
    (∀ row ∈ (processPostBatch posts cl rl).comments,
      row.submissionId ∈ (processPostBatch posts cl rl).posts.image PostRow.id) ∧
    (∀ row ∈ (processPostBatch posts cl rl).replies,
      row.submissionId ∈ (processPostBatch posts cl rl).posts.image PostRow.id ∧
      row.parentId ∈ (processPostBatch posts cl rl).comments.image CommentRow.id) := by
  obtain ⟨hp, -, hc, hr⟩ := processPostBatch_mem posts cl rl
  have hmemrun : ∀ pc : PostObj × CommentObj, pc ∈ runComments posts cl → pc.1 ∈ posts := by
    intro pc h
    rw [runComments] at h
    obtain ⟨q, hq, hmap⟩ := List.mem_flatMap.mp h
    obtain ⟨c, -, rfl⟩ := List.mem_map.mp hmap
    exact hq
  constructor
  · intro row hrow
    obtain ⟨pc, hpc, rfl⟩ := (hc row).mp hrow
    exact Finset.mem_image.mpr ⟨postRow pc.1, (hp _).mpr ⟨pc.1, hmemrun pc hpc, rfl⟩, rfl⟩
  · intro row hrow
    obtain ⟨pc, hpc, hx⟩ := (hr row).mp hrow
    obtain ⟨r, -, rfl⟩ := List.mem_map.mp (List.mem_toFinset.mp hx)
    constructor
    · exact Finset.mem_image.mpr ⟨postRow pc.1, (hp _).mpr ⟨pc.1, hmemrun pc hpc, rfl⟩, rfl⟩
    · exact Finset.mem_image.mpr
        ⟨commentRow pc.1.id pc.2 (realReplies (pc.2.replies.take rl)).length,
          (hc _).mpr ⟨pc, hpc, rfl⟩, rfl⟩

/-- Witness for C8: in the run over the sample post, the emitted comment
tuple's owning-post id is among the emitted post ids. -/
theorem extraction_referentially_complete_witness :
    (commentRow "p1" comment0 1).submissionId ∈
      (processPostBatch [post0] 50 20).posts.image PostRow.id :=
  (extraction_referentially_complete [post0] 50 20).1 (commentRow "p1" comment0 1) (by decide)

theorem replyRow_injective (pid : String) (c : CommentObj) :
    Function.Injective (replyRow pid c) := by
  intro a b hab
  cases a
  cases b
  simpa [replyRow, ReplyRow.mk.injEq, ReplyObj.mk.injEq] using hab

theorem repliesOfComment_parentId {pid : String} {rl : Nat} {c : CommentObj}
    {x : ReplyRow} (h : x ∈ repliesOfComment pid rl c) : x.parentId = c.id := by
  obtain ⟨r, -, rfl⟩ := List.mem_map.mp (List.mem_toFinset.mp h)
  rfl

theorem repliesOfComment_card {pid : String} {rl : Nat} {c : CommentObj}
    (h : (realReplies (c.replies.take rl)).Nodup) :
    (repliesOfComment pid rl c).card = (realReplies (c.replies.take rl)).length := by
  rw [repliesOfComment, List.toFinset_card_of_nodup (h.map (replyRow_injective pid c)),
    List.length_map]

/-- Claim C7: for every Comment tuple emitted in a run (whose processed
comment ids are pairwise distinct and whose processed reply objects are
pairwise distinct per comment, as remote ids are unique), its `Num_replies`
value equals the number of Reply tuples extracted in the same run whose
parent-comment id is that comment's id — a count bounded by the configured
reply limit, not the true remote reply count. -/
theorem commentRow_numReplies_correct (posts : List PostObj) (cl rl : Nat)
    (h1 : ((runComments posts cl).map fun pc => pc.2.id).Nodup)
    (h2 : ∀ pc ∈ runComments posts cl, (realReplies (pc.2.replies.take rl)).Nodup) :
    ∀ row ∈ (processPostBatch posts cl rl).comments,
      row.numReplies =
        ((processPostBatch posts cl rl).replies.filter
          fun r => r.parentId = row.id).card := by
  obtain ⟨-, -, hc, hr⟩ := processPostBatch_mem posts cl rl
  intro row hrow
  obtain ⟨pc, hpc, rfl⟩ := (hc row).mp hrow
  have hfilter : (processPostBatch posts cl rl).replies.filter
      (fun r => r.parentId =
        (commentRow pc.1.id pc.2 (realReplies (pc.2.replies.take rl)).length).id) =
      repliesOfComment pc.1.id rl pc.2 := by
    apply Finset.ext
    intro x
    rw [Finset.mem_filter, hr x]
    constructor
    · rintro ⟨⟨pc2, hpc2, hx⟩, hpar⟩
      have hid : pc2.2.id = pc.2.id := by
        rw [← repliesOfComment_parentId hx]
        exact hpar
      have heq : pc2 = pc := List.inj_on_of_nodup_map h1 hpc2 hpc hid
      rwa [heq] at hx
    · intro hx
      exact ⟨⟨pc, hpc, hx⟩, repliesOfComment_parentId hx⟩
  rw [hfilter, repliesOfComment_card (h2 pc hpc)]
  rfl

/-- Witness for C7: in the run over the sample post, the emitted comment
tuple records 1 reply, and exactly 1 extracted reply tuple names it as
parent. -/
theorem commentRow_numReplies_correct_witness :
    (commentRow "p1" comment0 1).numReplies =
      ((processPostBatch [post0] 50 20).replies.filter
        (fun r => r.parentId = (commentRow "p1" comment0 1).id)).card :=
  commentRow_numReplies_correct [post0] 50 20 (by decide) (by decide)
    (commentRow "p1" comment0 1) (by decide)

theorem pgRun_requests_sizes (src : List PostObj) (dv md : Nat) (idx : List Nat) :
    ∀ st out : PgState, pgRun src dv md idx st = .ok out →
      out.requests.map Prod.fst = st.requests.map Prod.fst ++ idxSizes dv md idx := by
  induction idx with
  | nil =>
    intro st out h
    simp only [pgRun] at h
    cases h
    simp [idxSizes]
  | cons i rest ih =>
    intro st out h
    simp only [pgRun] at h
    split at h
    · rename_i hbreak
      cases h
      simp [idxSizes, hbreak]
    · rename_i hbreak
      split at h
      · cases h
      · rename_i lastPost hlast
        rw [ih _ _ h]
        simp [idxSizes, hbreak, List.map_append]

theorem idxSizes_range (dv md : Nat) :
    ∀ n i : Nat, i + (n + 1) = dv + 1 →
      idxSizes dv md (List.range' i (n + 1)) =
        List.replicate n 100 ++ (if md = 0 then [] else [md]) := by
  intro n
  induction n with
  | zero =>
    intro i hi
    have hdv : i = dv := by omega
    subst hdv
    by_cases hm : md = 0 <;> simp [List.range', idxSizes, hm, pgLimit]
  | succ n ih =>
    intro i hi
    have hne : i ≠ dv := by omega
    have hcons : List.range' i (n + 1 + 1) = i :: List.range' (i + 1) (n + 1) := rfl
    rw [hcons]
    rw [show idxSizes dv md (i :: List.range' (i + 1) (n + 1)) =
        if i = dv ∧ md = 0 then []
        else pgLimit dv md i :: idxSizes dv md (List.range' (i + 1) (n + 1)) from rfl]
    rw [if_neg (by simp [hne])]
    rw [ih (i + 1) (by omega)]
    simp [pgLimit, hne, List.replicate_succ]

theorem dropAfterId_sublist (a : String) (src : List PostObj) :
    (dropAfterId a src).Sublist src := by
  induction src with
  | nil => simp [dropAfterId]
  | cons x rest ih =>
    simp only [dropAfterId]
    split
    · exact List.sublist_cons_self x rest
    · exact ih.cons x

theorem searchAll_mem (src : List PostObj) (lim : Nat) (after : Option String) :
    ∀ x ∈ searchAll src lim after, x ∈ src := by
  intro x hx
  cases after with
  | none => exact List.take_subset lim src hx
  | some a =>
    have h1 : x ∈ dropAfterId a src := List.take_subset lim _ hx
    exact (dropAfterId_sublist a src).subset h1

theorem mem_of_getLast?_eq {α : Type} {l : List α} {a : α} (h : l.getLast? = some a) :
    a ∈ l := by
  obtain ⟨hne, rfl⟩ := List.mem_getLast?_eq_getLast (x := a) h
  exact List.getLast_mem hne

theorem pgRun_inv (src : List PostObj) (dv md : Nat)
    (hid : ∀ x ∈ src, x.id ≠ "") :
    ∀ (idx : List Nat) (st out : PgState), PgInv src st →
      pgRun src dv md idx st = .ok out → PgInv src out := by
  intro idx
  induction idx with
  | nil =>
    intro st out hinv h
    simp only [pgRun] at h
    cases h
    exact hinv
  | cons i rest ih =>
    intro st out hinv h
    simp only [pgRun] at h
    split at h
    · cases h
      exact hinv
    · split at h
      · cases h
      · rename_i hbreak lastPost hlast
        refine ih _ _ ?_ h
        obtain ⟨e1, e2, e3, e4, e5, e6⟩ := hinv
        refine ⟨?_, ?_, ?_, ?_, ?_, ?_⟩
        · simp [e1]
        · intro pg hpg x hx
          rcases List.mem_append.mp hpg with h1 | h1
          · exact e2 pg h1 x hx
          · simp only [List.mem_singleton] at h1
            subst h1
            exact searchAll_mem src (pgLimit dv md i) (pgCursor st) x hx
        · intro pg hpg
          rcases List.mem_append.mp hpg with h1 | h1
          · exact e3 pg h1
          · simp only [List.mem_singleton] at h1
            subst h1
            intro hnil
            rw [hnil] at hlast
            cases hlast
        · intro habs
          simp at habs
        · intro pg hpg
          rw [List.getLast?_concat] at hpg
          obtain rfl : pg = searchAll src (pgLimit dv md i) (pgCursor st) :=
            (Option.some.injEq _ _ ▸ hpg).symm
          simp [hlast]
        · show cursorChain (st.requests ++ [(pgLimit dv md i, pgCursor st)])
            (st.pages ++ [searchAll src (pgLimit dv md i) (pgCursor st)])
          intro j hj hp
          have hjlen : j + 1 < st.requests.length + 1 := by simpa using hj
          rcases Nat.lt_or_ge (j + 1) st.requests.length with hlt | hge
          · have hpLt : j < st.pages.length := by omega
            have hq1 : (st.requests ++ [(pgLimit dv md i, pgCursor st)]).get ⟨j + 1, hj⟩ =
                st.requests.get ⟨j + 1, hlt⟩ := by
              simp [List.get_eq_getElem, List.getElem_append_left hlt]
            have hq2 : (st.pages ++ [searchAll src (pgLimit dv md i) (pgCursor st)]).get
                ⟨j, hp⟩ = st.pages.get ⟨j, hpLt⟩ := by
              simp [List.get_eq_getElem, List.getElem_append_left hpLt]
            rw [hq1, hq2]
            exact e6 j hlt hpLt
          · have hje : j + 1 = st.requests.length := by omega
            have hpages_ne : st.pages ≠ [] := by
              intro hnil
              rw [hnil] at e1
              simp only [List.length_nil] at e1
              omega
            have hjlt : j < st.pages.length := by
              have := List.length_pos_of_ne_nil hpages_ne
              omega
            have hjp : j = st.pages.length - 1 := by omega
            have hq1 : (st.requests ++ [(pgLimit dv md i, pgCursor st)]).get ⟨j + 1, hj⟩ =
                (pgLimit dv md i, pgCursor st) := by
              simp only [List.get_eq_getElem]
              rw [List.getElem_append_right (show st.requests.length ≤ j + 1 by omega)]
              simp [hje]
            have hq2 : (st.pages ++ [searchAll src (pgLimit dv md i) (pgCursor st)]).get
                ⟨j, hp⟩ = st.pages.get ⟨j, hjlt⟩ := by
              simp [List.get_eq_getElem, List.getElem_append_left hjlt]
            have hlastpg : st.pages.getLast? = some (st.pages.get ⟨j, hjlt⟩) := by
              rw [List.getLast?_eq_getElem?, List.get_eq_getElem]
              rw [show st.pages.length - 1 = j from hjp.symm]
              exact List.getElem?_eq_getElem hjlt
            have h5 := e5 _ hlastpg
            have hpgne : st.pages.get ⟨j, hjlt⟩ ≠ [] :=
              e3 _ (List.get_mem st.pages j hjlt)
            obtain ⟨y, hy⟩ : ∃ y, (st.pages.get ⟨j, hjlt⟩).getLast? = some y := by
              cases hgl : (st.pages.get ⟨j, hjlt⟩).getLast? with
              | none => exact absurd (List.getLast?_eq_none_iff.mp hgl) hpgne
              | some y => exact ⟨y, rfl⟩
            have hysrc : y ∈ src :=
              e2 _ (List.get_mem st.pages j hjlt) y (mem_of_getLast?_eq hy)
            have hyid : y.id ≠ "" := hid y hysrc
            have h5i : st.lastPostId = some y.id := by
              rw [h5, hy]
              rfl
            have hcur : pgCursor st = some y.id := by
              simp only [pgCursor, h5i]
              rw [if_neg hyid]
            rw [hq1, hq2, hy]
            show pgCursor st = Option.map PostObj.id (some y)
            rw [hcur]
            rfl

theorem expectedSizes_length (n : Nat) : (expectedSizes n).length = (n + 99) / 100 := by
  rw [expectedSizes]
  by_cases h : n % 100 = 0 <;> simp [h] <;> omega

/-- Claim C3: for every `posts_limit` (with `nativeLimit = 100`), a completed
pagination run issues exactly ceil(posts_limit/100) sequential search
requests, each after the first using the previous page's last item id as the
cursor, requesting 100 items per request except that the final request asks
for `posts_limit mod 100` when that remainder is nonzero; in particular
`posts_limit = 250` yields 3 requests of sizes 100, 100, 50. -/
theorem fillTablesFetch_pagination (src : List PostObj) (postsLimit : Nat)
    (reqs : List (Nat × Option String)) (pages : List (List PostObj))
    (hid : ∀ x ∈ src, x.id ≠ "")
    (hok : fillTablesFetch src postsLimit = .ok (reqs, pages)) :
    reqs.length = (postsLimit + 99) / 100 ∧
    reqs.map Prod.fst = expectedSizes postsLimit ∧
    cursorChain reqs pages := by
  have hinit : PgInv src ⟨none, none, [], []⟩ := by
    refine ⟨rfl, by simp, by simp, fun _ => ⟨rfl, rfl⟩, by simp, ?_⟩
    intro j hj hp
    simp at hj
  unfold fillTablesFetch at hok
  split at hok
  · rename_i hgt
    cases hrun : pgRun src (postsLimit / 100) (postsLimit % 100)
        (List.range (postsLimit / 100 + 1)) ⟨none, none, [], []⟩ with
    | error e =>
      rw [hrun] at hok
      cases hok
    | ok st =>
      rw [hrun] at hok
      simp only [Except.map] at hok
      rw [Except.ok.injEq, Prod.mk.injEq] at hok
      obtain ⟨hr, hp⟩ := hok
      subst hr
      subst hp
      have hsz := pgRun_requests_sizes src (postsLimit / 100) (postsLimit % 100)
        (List.range (postsLimit / 100 + 1)) _ _ hrun
      rw [List.range_eq_range'] at hsz
      rw [idxSizes_range (postsLimit / 100) (postsLimit % 100) (postsLimit / 100) 0
        (by omega)] at hsz
      have hsizes : st.requests.map Prod.fst = expectedSizes postsLimit := by
        rw [hsz]
        rfl
      have hinv := pgRun_inv src (postsLimit / 100) (postsLimit % 100) hid
        (List.range (postsLimit / 100 + 1)) _ _ hinit hrun
      refine ⟨?_, hsizes, hinv.2.2.2.2.2⟩
      calc st.requests.length = (st.requests.map Prod.fst).length :=
            (List.length_map _ _).symm
        _ = (expectedSizes postsLimit).length := by rw [hsizes]
        _ = (postsLimit + 99) / 100 := expectedSizes_length postsLimit
  · rename_i hle
    rw [Except.ok.injEq, Prod.mk.injEq] at hok
    obtain ⟨hr, hp⟩ := hok
    subst hr
    subst hp
    by_cases h0 : postsLimit = 0
    · subst h0
      refine ⟨by simp, by simp [expectedSizes], ?_⟩
      intro j hj hp
      simp at hj
    · have hle' : postsLimit ≤ 100 := by omega
      refine ⟨?_, ?_, ?_⟩
      · rw [if_neg h0]
        simp only [List.length_singleton]
        omega
      · rw [if_neg h0]
        rcases Nat.lt_or_ge postsLimit 100 with hlt | hge
        · simp [expectedSizes, Nat.div_eq_of_lt hlt, Nat.mod_eq_of_lt hlt, h0]
        · have h100 : postsLimit = 100 := by omega
          subst h100
          simp [expectedSizes]
      · intro j hj hp
        rw [if_neg h0] at hj
        simp only [List.length_singleton] at hj
        omega

set_option maxRecDepth 8000 in
/-- Witness for C3: with 250 items available and `posts_limit = 250`, the
completed run issues exactly 3 requests of sizes 100, 100, 50. -/
theorem fillTablesFetch_pagination_witness :
    reqs250.length = 3 ∧ reqs250.map Prod.fst = [100, 100, 50] := by
  have hok : fillTablesFetch src250 250 = .ok (reqs250, pages250) := by rfl
  have hm := fillTablesFetch_pagination src250 250 reqs250 pages250 (by decide) hok
  exact ⟨hm.1, hm.2.1.trans (by rfl)⟩
